import Mathlib

/-!
Shallow embedding of `context_builder.py` (llm-context-builder).

The embedding models the pure content of the program: glob matching
(`fnmatch`), the ignore/include rule sets, the language-hint table, the
SQLite schema renderer, UTF-8 decoding with Python's `errors="ignore"`
policy and universal-newline translation, the recursive directory walk
performed by `generate_tree_structure` and `process_directory`, the skill
registry (`toggle_skill`, `get_compiled_skills`) and the document assembly
of `run_generation`.  The filesystem is modelled as a finite tree of
entries; file reads and database queries are modelled as `Except` results
carried by the tree, so every error path of the source is represented.
-/

/-- Scan the characters of a glob character class for the closing `]`,
returning the class body and the remaining pattern.  `none` when the
class is unterminated (in which case `fnmatch` treats `[` literally). -/
def findClose (acc : List Char) : List Char → Option (List Char × List Char)
  | [] => none
  | ']' :: rest => some (acc.reverse, rest)
  | c :: rest => findClose (c :: acc) rest

/-- Parse a glob character class after the opening `[`, per
`fnmatch.translate`: a leading `!` negates, a `]` in first position is
literal.  Returns (negated, class body, rest of pattern). -/
def parseClass (s : List Char) : Option (Bool × List Char × List Char) :=
  match s with
  | '!' :: ']' :: t => (findClose [']'] t).map (fun p => (true, p.1, p.2))
  | '!' :: t => (findClose [] t).map (fun p => (true, p.1, p.2))
  | ']' :: t => (findClose [']'] t).map (fun p => (false, p.1, p.2))
  | t => (findClose [] t).map (fun p => (false, p.1, p.2))

/-- Membership of a character in a glob class body, with `a-z` ranges. -/
def classMatch (c : Char) : List Char → Bool
  | a :: '-' :: b :: rest => (decide (a ≤ c) && decide (c ≤ b)) || classMatch c rest
  | a :: rest => c == a || classMatch c rest
  | [] => false

/-- One step of the glob NFA: the pattern suffixes reachable after the
pattern suffix `p` consumes the character `c`.  A `*` consumes `c` and
stays; `?` consumes any character; `[` starts a class (or is literal when
unterminated); any other character must match literally. -/
def consume (c : Char) (p : List Char) : List (List Char) :=
  match p with
  | [] => []
  | x :: ps =>
    if x = '*' then [x :: ps]
    else if x = '?' then [ps]
    else if x = '[' then
      match parseClass ps with
      | some (neg, cls, rest) => if classMatch c cls != neg then [rest] else []
      | none => if c == x then [ps] else []
    else if c == x then [ps] else []

/-- Epsilon closure of a pattern suffix: a leading `*` may consume
nothing, so both the starred suffix and its tail are active. -/
def starClose : List Char → List (List Char)
  | [] => [[]]
  | x :: ps => if x = '*' then (x :: ps) :: starClose ps else [x :: ps]

/-- Run the glob NFA over the name, keeping the set of active pattern
suffixes; the name matches when some active suffix is exhausted at the
end of the name. -/
def globRun (states : List (List Char)) : List Char → Bool
  | [] => states.any (fun p => p.isEmpty)
  | c :: cs => globRun ((states.flatMap (consume c)).flatMap starClose) cs

/-- Whole-name glob matching with `*`, `?`, `[seq]`, `[!seq]`, the
semantics of `fnmatch.translate` on a bare name (no case folding, as on
POSIX). -/
def globMatch (pat : List Char) (name : List Char) : Bool :=
  globRun (starClose pat) name

/-- Python `fnmatch.fnmatch(name, pattern)` on POSIX. -/
def fnmatch (name pat : String) : Bool :=
  globMatch pat.toList name.toList

/-- `ProjectScanner.matches_any_pattern`: true when any pattern of the
set matches the bare name. -/
def matches_any_pattern (name : String) (patterns : List String) : Bool :=
  patterns.any (fun pattern => fnmatch name pattern)

/-- Module-level `IGNORED_DIRS` set. -/
def IGNORED_DIRS : List String :=
  [".git", "__pycache__", ".idea", ".venv", "venv", ".uv", "node_modules",
   "dist", "build", ".vscode", "skills"]

/-- Module-level `IGNORED_FILES` set (initial value, before any
`run_generation` adds an output basename). -/
def IGNORED_FILES : List String :=
  [".DS_Store", "*.pyc", "*.log", "*.html", "context_builder.py", ".env",
   "uv.lock", "package-lock.json", "yarn.lock", "poetry.lock"]

/-- Module-level `INCLUDE_HIDDEN_FILES` set. -/
def INCLUDE_HIDDEN_FILES : List String :=
  [".env.example", ".gitignore", ".dockerignore"]

/-- Module-level `SQLITE_EXTENSIONS` set. -/
def SQLITE_EXTENSIONS : List String := [".db", ".sqlite", ".sqlite3"]

/-- Module-level `SQLITE_EXACT_FILENAMES` set. -/
def SQLITE_EXACT_FILENAMES : List String := ["database"]

/-- Python `str.startswith`, evaluable by the kernel. -/
def strStartsWith (s pre : String) : Bool :=
  pre.toList.isPrefixOf s.toList

/-- `os.path.basename` on POSIX: the part after the last `/`. -/
def osBasename (p : String) : String :=
  String.mk ((p.toList.reverse.takeWhile (fun c => c != '/')).reverse)

/-- Helper for `os.path.splitext`: returns the extension (with its dot)
of a bare file name; `seenNonDot` records whether a non-dot character
occurred before the current position, since a leading run of dots never
starts an extension (`splitext(".env") = (".env", "")`). -/
def splitextExtAux (seenNonDot : Bool) : List Char → List Char
  | [] => []
  | '.' :: rest =>
    if seenNonDot then
      let sub := splitextExtAux true rest
      if sub.isEmpty then '.' :: rest else sub
    else splitextExtAux false rest
  | _ :: rest => splitextExtAux true rest

/-- Extension part of `os.path.splitext` on a bare file name. -/
def splitextExt (name : String) : String :=
  String.mk (splitextExtAux false name.toList)

/-- Python `str.lower()` (ASCII case folding suffices for the inputs the
program compares: file extensions). -/
def strToLower (s : String) : String :=
  String.mk (s.toList.map Char.toLower)

/-- `str.join` / `"\n".join`: concatenation with a separator. -/
def joinWith (sep : String) : List String → String
  | [] => ""
  | [a] => a
  | a :: b :: rest => a ++ sep ++ joinWith sep (b :: rest)

/-- `"\n".join(...)`. -/
def joinNL (l : List String) : String := joinWith "\n" l

/-- The `extension_map` dictionary of `get_language_hint`. -/
def extension_map : List (String × String) :=
  [(".py", "python"), (".js", "javascript"), (".ts", "typescript"),
   (".tsx", "typescript"), (".jsx", "javascript"), (".html", "html"),
   (".css", "css"), (".scss", "scss"), (".json", "json"), (".yml", "yaml"),
   (".yaml", "yaml"), (".md", "markdown"), (".sh", "shell"), (".rb", "ruby"),
   (".java", "java"), (".c", "c"), (".cpp", "cpp"), (".cs", "csharp"),
   (".go", "go"), (".php", "php"), (".rs", "rust"), (".sql", "sql"),
   (".xml", "xml"), (".toml", "toml"), (".dockerfile", "dockerfile"),
   ("Dockerfile", "dockerfile"), (".ini", "ini"), (".conf", "conf")]

/-- `ProjectScanner.get_language_hint`: look up the extension, then the
whole filename, else the empty tag. -/
def get_language_hint (filename : String) : String :=
  let ext := splitextExt filename
  match extension_map.lookup ext with
  | some tag => tag
  | none =>
    match extension_map.lookup filename with
    | some tag => tag
    | none => ""

/-- A column row of `PRAGMA table_info`: (cid, name, type, notnull,
dflt_value, pk); `notnull` and `pk` are integers used for truthiness. -/
structure SqliteColumn where
  cid : Nat
  name : String
  dtype : String
  notnull : Nat
  dflt : Option String
  pk : Nat
deriving DecidableEq

/-- A row of `PRAGMA foreign_key_list`: the fields at indices 2, 3, 4
used by the source (target table, source column, target column). -/
structure SqliteFK where
  target_table : String
  source_col : String
  target_col : String
deriving DecidableEq

/-- A user-visible table of the database: its catalog name, its
`table_info` rows and its `foreign_key_list` rows. -/
structure SqliteTable where
  name : String
  columns : List SqliteColumn
  fks : List SqliteFK
deriving DecidableEq

/-- Decidable equality for `Except`, so that concrete scan results can be
compared by evaluation. -/
instance exceptDecEq {ε α : Type} [DecidableEq ε] [DecidableEq α] :
    DecidableEq (Except ε α) := fun x y =>
  match x, y with
  | .ok a, .ok b =>
    if h : a = b then .isTrue (by rw [h]) else .isFalse (fun hh => h (Except.ok.inj hh))
  | .error a, .error b =>
    if h : a = b then .isTrue (by rw [h]) else .isFalse (fun hh => h (Except.error.inj hh))
  | .ok _, .error _ => .isFalse (fun hh => Except.noConfusion hh)
  | .error _, .ok _ => .isFalse (fun hh => Except.noConfusion hh)

/-- What the operating system and the SQLite engine give back for one
file: reading it as text yields bytes or raises (`OSError` message), and
querying it as a database yields the catalog tables or raises
(`sqlite3.Error` message). -/
structure FileData where
  readResult : Except String (List Nat)
  dbResult : Except String (List SqliteTable)
deriving DecidableEq

/-- The markdown lines emitted for one non-internal table in the loop of
`get_sqlite_schema` (lines 105-135 of the source). -/
def tableBlock (t : SqliteTable) : List String :=
  ["## Table: `" ++ t.name ++ "`",
   "| Column | Type | Nullable | PK | Default |",
   "|---|---|---|---|---|"]
  ++ t.columns.map (fun col =>
      let is_nullable := if col.notnull ≠ 0 then "No" else "Yes"
      let is_pk := if col.pk ≠ 0 then "✅" else ""
      let dflt := match col.dflt with
        | some v => "`" ++ v ++ "`"
        | none => ""
      "| **" ++ col.name ++ "** | " ++ col.dtype ++ " | " ++ is_nullable
        ++ " | " ++ is_pk ++ " | " ++ dflt ++ " |")
  ++ [""]
  ++ (if t.fks.isEmpty then []
      else ["**Foreign Keys:**"]
        ++ t.fks.map (fun fk =>
            "- `" ++ fk.source_col ++ "` references `" ++ fk.target_table
              ++ "(" ++ fk.target_col ++ ")`")
        ++ [""])
  ++ ["---\n"]

/-- `ProjectScanner.get_sqlite_schema`.  `file` is `none` when the path
does not exist.  The second component records whether the connection
opened by `sqlite3.connect` (line 92) was closed before returning:
`conn.close()` (line 137) runs only on the success path; the
`except sqlite3.Error` path (line 142) returns without closing, and when
the file does not exist no connection is opened (recorded as `true`,
nothing leaked).  The dead emptiness check of line 138 is kept as in the
source: `markdown_output` always starts with the header appended at line
98, so it is never empty. -/
def get_sqlite_schema (db_path : String) (file : Option FileData) :
    String × Bool :=
  match file with
  | none => ("Error: Database file '" ++ db_path ++ "' not found.", true)
  | some fd =>
    match fd.dbResult with
    | .error e => ("SQLite Error reading schema: " ++ e, false)
    | .ok tables =>
      let markdown_output :=
        ["# SQLite Schema: " ++ osBasename db_path ++ "\n"]
        ++ (tables.filter (fun t => !(strStartsWith t.name "sqlite_"))).flatMap
            tableBlock
      if markdown_output.isEmpty then
        ("Database is empty or contains no user tables.", true)
      else (joinNL markdown_output, true)

/-- Classification of a byte in start position: an ASCII character, the
start of a multi-byte sequence (initial code-point bits, number of
continuation bytes still needed, and the allowed range of the next byte,
which excludes overlong encodings, surrogates and code points above
`U+10FFFF`), or an invalid start byte. -/
inductive Utf8Start where
  | ascii (c : Char)
  | multi (cp need lo hi : Nat)
  | invalid

/-- Decode table for a byte in start position. -/
def startByte (b : Nat) : Utf8Start :=
  if b < 0x80 then .ascii (Char.ofNat b)
  else if 0xC2 ≤ b && b ≤ 0xDF then .multi (b - 0xC0) 1 0x80 0xBF
  else if b = 0xE0 then .multi 0 2 0xA0 0xBF
  else if b = 0xED then .multi 0xD 2 0x80 0x9F
  else if 0xE1 ≤ b && b ≤ 0xEF then .multi (b - 0xE0) 2 0x80 0xBF
  else if b = 0xF0 then .multi 0 3 0x90 0xBF
  else if b = 0xF4 then .multi 4 3 0x80 0x8F
  else if 0xF1 ≤ b && b ≤ 0xF3 then .multi (b - 0xF0) 3 0x80 0xBF
  else .invalid

/-- UTF-8 decoding loop with Python's error recovery (maximal-subpart
substitution): on an error the offending bytes are replaced by `errSub`;
a byte that invalidates a pending sequence is reprocessed in start
position after the substitution, and a sequence truncated at end of
input is one error. -/
def utf8Run (errSub : List Char) : Option (Nat × Nat × Nat × Nat) → List Nat → List Char
  | none, [] => []
  | some _, [] => errSub
  | none, b :: rest =>
    (match startByte b with
     | .ascii c => c :: utf8Run errSub none rest
     | .multi cp need lo hi => utf8Run errSub (some (cp, need, lo, hi)) rest
     | .invalid => errSub ++ utf8Run errSub none rest)
  | some (cp, need, lo, hi), b :: rest =>
    if lo ≤ b && b ≤ hi then
      (if need = 1 then Char.ofNat (cp * 0x40 + (b - 0x80)) :: utf8Run errSub none rest
       else utf8Run errSub (some (cp * 0x40 + (b - 0x80), need - 1, 0x80, 0xBF)) rest)
    else
      errSub ++
        (match startByte b with
         | .ascii c => c :: utf8Run errSub none rest
         | .multi cp2 need2 lo2 hi2 => utf8Run errSub (some (cp2, need2, lo2, hi2)) rest
         | .invalid => errSub ++ utf8Run errSub none rest)

/-- UTF-8 decoding with error substitution `errSub`: `[]` models
`errors="ignore"` (the policy `process_directory` uses), `['�']` models
`errors="replace"`. -/
def utf8DecodeWith (errSub : List Char) (bytes : List Nat) : List Char :=
  utf8Run errSub none bytes

/-- Universal-newline translation performed by text-mode `open(...)`:
`"\r\n"` and a lone `"\r"` both become `"\n"`. -/
def translateNewlines : List Char → List Char
  | [] => []
  | [c] => if c = '\r' then ['\n'] else [c]
  | c :: c2 :: rest =>
    if c = '\r' then
      (if c2 = '\n' then '\n' :: translateNewlines rest
       else '\n' :: translateNewlines (c2 :: rest))
    else c :: translateNewlines (c2 :: rest)

/-- The string returned by `f.read()` for a file opened with
`open(file_path, "r", encoding="utf-8", errors="ignore")`. -/
def readTextContent (bytes : List Nat) : String :=
  String.mk (translateNewlines (utf8DecodeWith [] bytes))

/-- A filesystem tree: the entries of a directory in the order the
operating system lists them (the order `os.walk` sees). -/
inductive FSEntry where
  | file (name : String) (data : FileData)
  | dir (name : String) (entries : List FSEntry)

/-- The plain files among a directory's entries, in listing order. -/
def filesOf : List FSEntry → List (String × FileData)
  | [] => []
  | .file n d :: es => (n, d) :: filesOf es
  | .dir _ _ :: es => filesOf es

/-- The module-level rule sets as a record, so that the mutation
performed by `run_generation` on `IGNORED_FILES` is explicit state. -/
structure Rules where
  ignored_dirs : List String
  ignored_files : List String
  include_hidden : List String

/-- The initial values of the three module-level rule sets. -/
def defaultRules : Rules := ⟨IGNORED_DIRS, IGNORED_FILES, INCLUDE_HIDDEN_FILES⟩

/-- The shared visibility condition on a file name: not ignored, and
either not hidden or explicitly included (the filter of
`generate_tree_structure` lines 150-158 and the guards of
`process_directory` lines 175-181 compute exactly this boolean). -/
def fileShown (r : Rules) (f : String) : Bool :=
  !(matches_any_pattern f r.ignored_files)
    && (!(strStartsWith f ".") || matches_any_pattern f r.include_hidden)

/-- Python's `<` on strings: lexicographic comparison of the code
points. -/
def charListLt : List Char → List Char → Bool
  | [], [] => false
  | [], _ :: _ => true
  | _ :: _, [] => false
  | a :: as, b :: bs => a.toNat < b.toNat || (a == b && charListLt as bs)

/-- Python's `<=` on strings, the order `sorted` uses. -/
def strLeB (a b : String) : Bool :=
  charListLt a.toList b.toList || a == b

/-- Insertion step of the stable lexicographic sort modelling Python's
`sorted` on file names (pairs keep their data). -/
def insertFileSorted (x : String × FileData) :
    List (String × FileData) → List (String × FileData)
  | [] => [x]
  | y :: ys =>
    if strLeB x.1 y.1 then x :: y :: ys else y :: insertFileSorted x ys

/-- Python `sorted(files)` on (name, data) pairs. -/
def sortFiles : List (String × FileData) → List (String × FileData)
  | [] => []
  | x :: xs => insertFileSorted x (sortFiles xs)

/-- Insertion step of the stable lexicographic sort on strings. -/
def insertStrSorted (x : String) : List String → List String
  | [] => [x]
  | y :: ys => if strLeB x y then x :: y :: ys else y :: insertStrSorted x ys

/-- Python `sorted` on a list of strings. -/
def sortStrings : List String → List String
  | [] => []
  | x :: xs => insertStrSorted x (sortStrings xs)

/-- The files of one visited directory that `process_directory` accepts,
with their data, tagged with the empty relative directory path: the loop
`for file in sorted(files)` with the two `continue` guards of lines
175-181. -/
def dirFilesPart (r : Rules) (es : List FSEntry) :
    List (List String × String × FileData) :=
  (sortFiles (filesOf es)).filterMap (fun f =>
    if matches_any_pattern f.1 r.ignored_files then none
    else if strStartsWith f.1 "." && !(matches_any_pattern f.1 r.include_hidden) then none
    else some ([], f.1, f.2))

/-- The walk below a directory's entries: for each subdirectory that
survives the pruning `dirs[:] = [d for d in dirs if not ...]`, all files
accepted anywhere below it, paths extended with the subdirectory name;
subdirectories are visited depth-first in listing order, exactly the
order of `os.walk(..., topdown=True)`. -/
def subWalk (r : Rules) : List FSEntry → List (List String × String × FileData)
  | [] => []
  | .file _ _ :: es => subWalk r es
  | .dir d sub :: es =>
    (if matches_any_pattern d r.ignored_dirs then []
     else (dirFilesPart r sub ++ subWalk r sub).map (fun x => (d :: x.1, x.2)))
    ++ subWalk r es

/-- All files `process_directory` accepts below the source root, with
their relative directory path, in processing order. -/
def walk_files (r : Rules) (es : List FSEntry) :
    List (List String × String × FileData) :=
  dirFilesPart r es ++ subWalk r es

/-- `" " * 4 * level`. -/
def indentStr (level : Nat) : String := String.mk (List.replicate (4 * level) ' ')

/-- The sorted visible file lines of one visited directory in
`generate_tree_structure` (lines 150-165), indented at `level`. -/
def dirFileLines (r : Rules) (level : Nat) (es : List FSEntry) : List String :=
  (sortStrings (((filesOf es).map Prod.fst).filter (fileShown r))).map
    (fun f => indentStr level ++ f)

/-- The tree-listing lines contributed by the subdirectories of a visited
directory whose own entries sit at indentation `level`. -/
def treeSubLines (r : Rules) (level : Nat) : List FSEntry → List String
  | [] => []
  | .file _ _ :: es => treeSubLines r level es
  | .dir d sub :: es =>
    (if matches_any_pattern d r.ignored_dirs then []
     else ((indentStr level ++ d ++ "/") :: dirFileLines r (level + 1) sub)
       ++ treeSubLines r (level + 1) sub)
    ++ treeSubLines r level es

/-- `ProjectScanner.generate_tree_structure`: header, fenced walk listing
(root line, then per directory its sorted visible files and its kept
subdirectories, depth-first), closing fence. -/
def generate_tree_structure (r : Rules) (source_dir : String)
    (es : List FSEntry) : String :=
  let project_name := osBasename source_dir
  joinNL (["# " ++ project_name ++ " Project Structure", "```"]
    ++ ((indentStr 0 ++ project_name ++ "/") :: dirFileLines r 1 es)
    ++ treeSubLines r 1 es
    ++ ["```"])

/-- The (relative directory path, file name) pairs whose lines the tree
listing shows, in the same walk order, using the same
`files_to_show` filter as `generate_tree_structure`. -/
def dirShownFiles (r : Rules) (es : List FSEntry) : List (List String × String) :=
  (sortStrings (((filesOf es).map Prod.fst).filter (fileShown r))).map
    (fun f => ([], f))

/-- Shown files below the subdirectories of a visited directory. -/
def treeShownSubs (r : Rules) : List FSEntry → List (List String × String)
  | [] => []
  | .file _ _ :: es => treeShownSubs r es
  | .dir d sub :: es =>
    (if matches_any_pattern d r.ignored_dirs then []
     else (dirShownFiles r sub ++ treeShownSubs r sub).map (fun x => (d :: x.1, x.2)))
    ++ treeShownSubs r es

/-- All files shown in the tree listing, with relative directory paths. -/
def tree_shown (r : Rules) (es : List FSEntry) : List (List String × String) :=
  dirShownFiles r es ++ treeShownSubs r es

/-- The formatted block of lines 202-208 for one file. -/
def formatBlock (relative_path lang_hint content : String) : String :=
  "\n---\n\n**File:** `" ++ relative_path ++ "`\n\n```" ++ lang_hint ++ "\n"
    ++ content ++ "\n```"

/-- The `is_sqlite` test of lines 186-189: recognized extension
(lower-cased) or exact reserved name. -/
def is_sqlite_file (file : String) : Bool :=
  SQLITE_EXTENSIONS.contains (strToLower (splitextExt file))
    || SQLITE_EXACT_FILENAMES.contains file

/-- The `try` body of lines 191-211 for one accepted file: a formatted
block on success, or the `Could not read file ...` log line printed when
the read raises. -/
def processFile (source_dir : String) (x : List String × String × FileData) :
    Except String String :=
  let relative_path := joinWith "/" (x.1 ++ [x.2.1])
  let file_path := source_dir ++ "/" ++ relative_path
  if is_sqlite_file x.2.1 then
    .ok (formatBlock relative_path "markdown"
      (get_sqlite_schema file_path (some x.2.2)).1)
  else
    match x.2.2.readResult with
    | .ok bytes =>
      .ok (formatBlock relative_path (get_language_hint x.2.1) (readTextContent bytes))
    | .error e => .error ("Could not read file " ++ file_path ++ ": " ++ e)

/-- Per-file outcomes of `process_directory` in processing order. -/
def scanResults (source_dir : String) (r : Rules) (es : List FSEntry) :
    List (Except String String) :=
  (walk_files r es).map (processFile source_dir)

/-- `ProjectScanner.process_directory`: the joined blocks of all files
whose processing succeeded, and the log lines printed for files whose
read raised. -/
def process_directory (source_dir : String) (r : Rules) (es : List FSEntry) :
    String × List String :=
  (joinNL ((scanResults source_dir r es).filterMap (fun x => x.toOption)),
   (scanResults source_dir r es).filterMap (fun x =>
     match x with
     | .error e => some e
     | .ok _ => none))

/-- `SkillManager` session state; `selected_skills` models the Python
set as a duplicate-free list. -/
structure SkillManager where
  skills_dir : String
  available_skills : List String
  selected_skills : List String

/-- `SkillManager.toggle_skill`. -/
def toggle_skill (m : SkillManager) (index : Int) : SkillManager × String :=
  if 0 ≤ index ∧ index < (m.available_skills.length : Int) then
    let skill := m.available_skills.getD index.toNat ""
    if m.selected_skills.contains skill then
      ({ m with selected_skills := m.selected_skills.erase skill },
       "Removed skill: " ++ skill)
    else
      ({ m with selected_skills := skill :: m.selected_skills },
       "Added skill: " ++ skill)
  else (m, "Invalid skill selection")

/-- `sorted(list(self.selected_skills))`: the skills whose sections
`get_compiled_skills` emits, in order. -/
def compiledSkillNames (m : SkillManager) : List String :=
  sortStrings m.selected_skills

/-- The section emitted for one selected skill: its loaded body wrapped
with the labeled marker, or the inline error note when loading raises.
`skillFS` maps a path to the file's content or to the raised error. -/
def skillSection (skills_dir : String) (skillFS : String → Except String String)
    (skill_file : String) : String :=
  match skillFS (skills_dir ++ "/" ++ skill_file) with
  | .ok content => "## Skill Module: " ++ skill_file ++ "\n" ++ content ++ "\n---\n"
  | .error e => "Error loading skill " ++ skill_file ++ ": " ++ e

/-- `SkillManager.get_compiled_skills`. -/
def get_compiled_skills (m : SkillManager)
    (skillFS : String → Except String String) : String :=
  if m.selected_skills = [] then ""
  else
    joinNL (["# ACTIVE AGENT SKILLS & PERSONAS\n",
      "The following skills are active for this session. Adopt these roles and guidelines:\n"]
      ++ (compiledSkillNames m).map (skillSection m.skills_dir skillFS))

/-- The `final_output` list assembled by `run_generation` lines 297-307:
optional compiled-skills block and fixed marker, then tree, fixed file
contents header, and the collected bodies. -/
def assembleDocument (skill_manager : Option SkillManager)
    (skillFS : String → Except String String) (tree content : String) :
    List String :=
  (match skill_manager with
   | some m =>
     let skills_content := get_compiled_skills m skillFS
     if skills_content = "" then []
     else [skills_content, "\n# PROJECT CONTEXT START\n"]
   | none => [])
  ++ [tree, "\n# FILE CONTENTS\n", content]

/-- Python `set.add`: no change when the element is present. -/
def setAdd (l : List String) (x : String) : List String :=
  if x ∈ l then l else l ++ [x]

/-- `run_generation`: adds the output basename to the ignored-files set,
scans with the updated rules, and assembles the document that is written
to the output file.  Returns the written document and the rule state the
process keeps afterwards. -/
def run_generation (r : Rules) (source_dir : String) (es : List FSEntry)
    (output_file : String) (skill_manager : Option SkillManager)
    (skillFS : String → Except String String) : String × Rules :=
  let r' : Rules :=
    { r with ignored_files := setAdd r.ignored_files (osBasename output_file) }
  let tree := generate_tree_structure r' source_dir es
  let content := (process_directory source_dir r' es).1
  (joinNL (assembleDocument skill_manager skillFS tree content), r')

/-- A file exists in the modelled filesystem at relative directory path
`ds` with name `name` and data `fd`. -/
inductive FileAt : List FSEntry → List String → String → FileData → Prop
  | here {es : List FSEntry} {name : String} {fd : FileData} :
      FSEntry.file name fd ∈ es → FileAt es [] name fd
  | step {es : List FSEntry} {d : String} {sub : List FSEntry} {ds : List String}
      {name : String} {fd : FileData} :
      FSEntry.dir d sub ∈ es → FileAt sub ds name fd → FileAt es (d :: ds) name fd

/-- The inclusion condition: no directory on the relative path matches a
directory-ignore pattern, the file name matches no file-ignore pattern,
and the name is either not hidden or matches an include-hidden
pattern. -/
def includedCond (r : Rules) (ds : List String) (name : String) : Bool :=
  ds.all (fun d => !(matches_any_pattern d r.ignored_dirs)) && fileShown r name

theorem includedCond_nil (r : Rules) (name : String) :
    includedCond r [] name = fileShown r name := by
  simp [includedCond]

theorem includedCond_cons (r : Rules) (d : String) (ds : List String) (name : String) :
    includedCond r (d :: ds) name
      = (!(matches_any_pattern d r.ignored_dirs) && includedCond r ds name) := by
  simp [includedCond, Bool.and_assoc]

theorem mem_insertFileSorted {x y : String × FileData} {l : List (String × FileData)} :
    y ∈ insertFileSorted x l ↔ y = x ∨ y ∈ l := by
  induction l with
  | nil => simp [insertFileSorted]
  | cons z zs ih =>
    simp only [insertFileSorted]
    split
    · simp [List.mem_cons]
    · simp only [List.mem_cons, ih]
      tauto

theorem mem_sortFiles {y : String × FileData} {l : List (String × FileData)} :
    y ∈ sortFiles l ↔ y ∈ l := by
  induction l with
  | nil => simp [sortFiles]
  | cons z zs ih => simp [sortFiles, mem_insertFileSorted, ih]

theorem mem_insertStrSorted {x y : String} {l : List String} :
    y ∈ insertStrSorted x l ↔ y = x ∨ y ∈ l := by
  induction l with
  | nil => simp [insertStrSorted]
  | cons z zs ih =>
    simp only [insertStrSorted]
    split
    · simp [List.mem_cons]
    · simp only [List.mem_cons, ih]
      tauto

theorem mem_sortStrings {y : String} {l : List String} :
    y ∈ sortStrings l ↔ y ∈ l := by
  induction l with
  | nil => simp [sortStrings]
  | cons z zs ih => simp [sortStrings, mem_insertStrSorted, ih]

theorem mem_filesOf {es : List FSEntry} {n : String} {fd : FileData} :
    (n, fd) ∈ filesOf es ↔ FSEntry.file n fd ∈ es := by
  induction es with
  | nil => simp [filesOf]
  | cons e es ih =>
    cases e with
    | file n' fd' => simp [filesOf, ih, List.mem_cons, Prod.mk.injEq, FSEntry.file.injEq]
    | dir d sub => simp [filesOf, ih]

theorem shown_iff_guards {r : Rules} {f : String} :
    fileShown r f = true ↔
      (matches_any_pattern f r.ignored_files = false
        ∧ (strStartsWith f "." && !(matches_any_pattern f r.include_hidden)) = false) := by
  cases h1 : matches_any_pattern f r.ignored_files <;>
    cases h2 : strStartsWith f "." <;>
    cases h3 : matches_any_pattern f r.include_hidden <;>
      simp [fileShown, h1, h2, h3]

theorem mem_dirFilesPart {r : Rules} {es : List FSEntry}
    {x : List String × String × FileData} :
    x ∈ dirFilesPart r es ↔
      ∃ n fd, FSEntry.file n fd ∈ es ∧ fileShown r n = true ∧ x = ([], n, fd) := by
  simp only [dirFilesPart, List.mem_filterMap]
  constructor
  · rintro ⟨f, hf, hx⟩
    by_cases hm : matches_any_pattern f.1 r.ignored_files = true
    · rw [if_pos hm] at hx
      exact absurd hx (by simp)
    · rw [if_neg hm] at hx
      by_cases hh : (strStartsWith f.1 "." && !(matches_any_pattern f.1 r.include_hidden)) = true
      · rw [if_pos hh] at hx
        exact absurd hx (by simp)
      · rw [if_neg hh] at hx
        refine ⟨f.1, f.2, mem_filesOf.mp (mem_sortFiles.mp hf), ?_, (Option.some.inj hx).symm⟩
        exact shown_iff_guards.mpr ⟨Bool.eq_false_iff.mpr hm, Bool.eq_false_iff.mpr hh⟩
  · rintro ⟨n, fd, hmem, hshown, rfl⟩
    refine ⟨(n, fd), mem_sortFiles.mpr (mem_filesOf.mpr hmem), ?_⟩
    rcases shown_iff_guards.mp hshown with ⟨hm, hh⟩
    simp [hm, hh]

theorem mem_subWalk {r : Rules} {es : List FSEntry}
    {x : List String × String × FileData} :
    x ∈ subWalk r es ↔
      ∃ d sub y, FSEntry.dir d sub ∈ es
        ∧ matches_any_pattern d r.ignored_dirs = false
        ∧ y ∈ dirFilesPart r sub ++ subWalk r sub ∧ x = (d :: y.1, y.2) := by
  induction es with
  | nil =>
    rw [subWalk]
    constructor
    · intro hx
      exact absurd hx (List.not_mem_nil _)
    · rintro ⟨d, sub, y, hmem, -⟩
      exact absurd hmem (List.not_mem_nil _)
  | cons e es ih =>
    cases e with
    | file n fd =>
      rw [subWalk, ih]
      constructor
      · rintro ⟨d, sub, y, hmem, h⟩
        exact ⟨d, sub, y, List.mem_cons_of_mem _ hmem, h⟩
      · rintro ⟨d, sub, y, hmem, h⟩
        rcases List.mem_cons.mp hmem with heq | hmem'
        · exact FSEntry.noConfusion heq
        · exact ⟨d, sub, y, hmem', h⟩
    | dir d0 sub0 =>
      rw [subWalk]
      by_cases hm0 : matches_any_pattern d0 r.ignored_dirs = true
      · rw [if_pos hm0]
        simp only [List.nil_append]
        rw [ih]
        constructor
        · rintro ⟨d, sub, y, hmem, h⟩
          exact ⟨d, sub, y, List.mem_cons_of_mem _ hmem, h⟩
        · rintro ⟨d, sub, y, hmem, hdm, hy, hx⟩
          rcases List.mem_cons.mp hmem with heq | hmem'
          · rcases FSEntry.dir.inj heq with ⟨rfl, rfl⟩
            exact absurd hdm (by simp [hm0])
          · exact ⟨d, sub, y, hmem', hdm, hy, hx⟩
      · rw [if_neg hm0]
        constructor
        · intro hx
          rcases List.mem_append.mp hx with h1 | h2
          · rcases List.mem_map.mp h1 with ⟨y, hy, rfl⟩
            exact ⟨d0, sub0, y, List.mem_cons_self _ _, Bool.eq_false_iff.mpr hm0, hy, rfl⟩
          · rcases ih.mp h2 with ⟨d, sub, y, hmem, h⟩
            exact ⟨d, sub, y, List.mem_cons_of_mem _ hmem, h⟩
        · rintro ⟨d, sub, y, hmem, hdm, hy, hx⟩
          rcases List.mem_cons.mp hmem with heq | hmem'
          · rcases FSEntry.dir.inj heq with ⟨rfl, rfl⟩
            subst hx
            exact List.mem_append.mpr (.inl (List.mem_map.mpr ⟨y, hy, rfl⟩))
          · subst hx
            exact List.mem_append.mpr (.inr (ih.mpr ⟨d, sub, y, hmem', hdm, hy, rfl⟩))

theorem walk_files_cond {r : Rules} :
    ∀ (ds : List String) (name : String) (fd : FileData) (es : List FSEntry),
      (ds, name, fd) ∈ walk_files r es → includedCond r ds name = true := by
  intro ds
  induction ds with
  | nil =>
    intro name fd es h
    rcases List.mem_append.mp h with h1 | h2
    · rcases mem_dirFilesPart.mp h1 with ⟨n, fdd, _, hs, heq⟩
      simp only [Prod.mk.injEq] at heq
      obtain ⟨-, rfl, rfl⟩ := heq
      rw [includedCond_nil]
      exact hs
    · rcases mem_subWalk.mp h2 with ⟨d, sub, y, -, -, -, hx⟩
      simp only [Prod.mk.injEq] at hx
      exact absurd hx.1 (by simp)
  | cons d0 ds ih =>
    intro name fd es h
    rcases List.mem_append.mp h with h1 | h2
    · rcases mem_dirFilesPart.mp h1 with ⟨n, fdd, -, -, heq⟩
      simp only [Prod.mk.injEq] at heq
      exact absurd heq.1 (by simp)
    · rcases mem_subWalk.mp h2 with ⟨d, sub, y, hdmem, hdm, hy, hx⟩
      obtain ⟨yds, yn, yfd⟩ := y
      simp only [Prod.mk.injEq, List.cons.injEq] at hx
      obtain ⟨⟨rfl, rfl⟩, rfl, rfl⟩ := hx
      rw [includedCond_cons, Bool.and_eq_true]
      exact ⟨by simp [hdm], ih _ _ sub hy⟩

theorem walk_files_of_cond {r : Rules} :
    ∀ {es : List FSEntry} {ds : List String} {name : String} {fd : FileData},
      FileAt es ds name fd → includedCond r ds name = true →
        (ds, name, fd) ∈ walk_files r es := by
  intro es ds name fd h
  induction h with
  | here hmem =>
    intro hc
    refine List.mem_append.mpr (.inl ?_)
    refine mem_dirFilesPart.mpr ⟨_, _, hmem, ?_, rfl⟩
    rwa [includedCond_nil] at hc
  | step hdmem hsub ih =>
    intro hc
    rw [includedCond_cons, Bool.and_eq_true] at hc
    refine List.mem_append.mpr (.inr ?_)
    exact mem_subWalk.mpr ⟨_, _, (_, _, _), hdmem, by simpa using hc.1, ih hc.2, rfl⟩

theorem mem_dirShownFiles {r : Rules} {es : List FSEntry} {x : List String × String} :
    x ∈ dirShownFiles r es ↔
      ∃ n fd, FSEntry.file n fd ∈ es ∧ fileShown r n = true ∧ x = ([], n) := by
  simp only [dirShownFiles, List.mem_map]
  constructor
  · rintro ⟨f, hf, rfl⟩
    rcases List.mem_filter.mp (mem_sortStrings.mp hf) with ⟨hmem, hshown⟩
    rcases List.mem_map.mp hmem with ⟨⟨n, fd⟩, hnf, rfl⟩
    exact ⟨n, fd, mem_filesOf.mp hnf, hshown, rfl⟩
  · rintro ⟨n, fd, hmem, hshown, rfl⟩
    exact ⟨n, mem_sortStrings.mpr (List.mem_filter.mpr
      ⟨List.mem_map.mpr ⟨(n, fd), mem_filesOf.mpr hmem, rfl⟩, hshown⟩), rfl⟩

theorem mem_treeShownSubs {r : Rules} {es : List FSEntry} {x : List String × String} :
    x ∈ treeShownSubs r es ↔
      ∃ d sub y, FSEntry.dir d sub ∈ es
        ∧ matches_any_pattern d r.ignored_dirs = false
        ∧ y ∈ dirShownFiles r sub ++ treeShownSubs r sub ∧ x = (d :: y.1, y.2) := by
  induction es with
  | nil =>
    rw [treeShownSubs]
    constructor
    · intro hx
      exact absurd hx (List.not_mem_nil _)
    · rintro ⟨d, sub, y, hmem, -⟩
      exact absurd hmem (List.not_mem_nil _)
  | cons e es ih =>
    cases e with
    | file n fd =>
      rw [treeShownSubs, ih]
      constructor
      · rintro ⟨d, sub, y, hmem, h⟩
        exact ⟨d, sub, y, List.mem_cons_of_mem _ hmem, h⟩
      · rintro ⟨d, sub, y, hmem, h⟩
        rcases List.mem_cons.mp hmem with heq | hmem'
        · exact FSEntry.noConfusion heq
        · exact ⟨d, sub, y, hmem', h⟩
    | dir d0 sub0 =>
      rw [treeShownSubs]
      by_cases hm0 : matches_any_pattern d0 r.ignored_dirs = true
      · rw [if_pos hm0]
        simp only [List.nil_append]
        rw [ih]
        constructor
        · rintro ⟨d, sub, y, hmem, h⟩
          exact ⟨d, sub, y, List.mem_cons_of_mem _ hmem, h⟩
        · rintro ⟨d, sub, y, hmem, hdm, hy, hx⟩
          rcases List.mem_cons.mp hmem with heq | hmem'
          · rcases FSEntry.dir.inj heq with ⟨rfl, rfl⟩
            exact absurd hdm (by simp [hm0])
          · exact ⟨d, sub, y, hmem', hdm, hy, hx⟩
      · rw [if_neg hm0]
        constructor
        · intro hx
          rcases List.mem_append.mp hx with h1 | h2
          · rcases List.mem_map.mp h1 with ⟨y, hy, rfl⟩
            exact ⟨d0, sub0, y, List.mem_cons_self _ _, Bool.eq_false_iff.mpr hm0, hy, rfl⟩
          · rcases ih.mp h2 with ⟨d, sub, y, hmem, h⟩
            exact ⟨d, sub, y, List.mem_cons_of_mem _ hmem, h⟩
        · rintro ⟨d, sub, y, hmem, hdm, hy, hx⟩
          rcases List.mem_cons.mp hmem with heq | hmem'
          · rcases FSEntry.dir.inj heq with ⟨rfl, rfl⟩
            subst hx
            exact List.mem_append.mpr (.inl (List.mem_map.mpr ⟨y, hy, rfl⟩))
          · subst hx
            exact List.mem_append.mpr (.inr (ih.mpr ⟨d, sub, y, hmem', hdm, hy, rfl⟩))

theorem tree_shown_cond {r : Rules} :
    ∀ (ds : List String) (name : String) (es : List FSEntry),
      (ds, name) ∈ tree_shown r es → includedCond r ds name = true := by
  intro ds
  induction ds with
  | nil =>
    intro name es h
    rcases List.mem_append.mp h with h1 | h2
    · rcases mem_dirShownFiles.mp h1 with ⟨n, fdd, -, hs, heq⟩
      simp only [Prod.mk.injEq] at heq
      obtain ⟨-, rfl⟩ := heq
      rw [includedCond_nil]
      exact hs
    · rcases mem_treeShownSubs.mp h2 with ⟨d, sub, y, -, -, -, hx⟩
      simp only [Prod.mk.injEq] at hx
      exact absurd hx.1 (by simp)
  | cons d0 ds ih =>
    intro name es h
    rcases List.mem_append.mp h with h1 | h2
    · rcases mem_dirShownFiles.mp h1 with ⟨n, fdd, -, -, heq⟩
      simp only [Prod.mk.injEq] at heq
      exact absurd heq.1 (by simp)
    · rcases mem_treeShownSubs.mp h2 with ⟨d, sub, y, hdmem, hdm, hy, hx⟩
      obtain ⟨yds, yn⟩ := y
      simp only [Prod.mk.injEq, List.cons.injEq] at hx
      obtain ⟨⟨rfl, rfl⟩, rfl⟩ := hx
      rw [includedCond_cons, Bool.and_eq_true]
      exact ⟨by simp [hdm], ih _ sub hy⟩

theorem tree_shown_of_cond {r : Rules} :
    ∀ {es : List FSEntry} {ds : List String} {name : String} {fd : FileData},
      FileAt es ds name fd → includedCond r ds name = true →
        (ds, name) ∈ tree_shown r es := by
  intro es ds name fd h
  induction h with
  | here hmem =>
    intro hc
    refine List.mem_append.mpr (.inl ?_)
    refine mem_dirShownFiles.mpr ⟨_, _, hmem, ?_, rfl⟩
    rwa [includedCond_nil] at hc
  | step hdmem hsub ih =>
    intro hc
    rw [includedCond_cons, Bool.and_eq_true] at hc
    refine List.mem_append.mpr (.inr ?_)
    exact mem_treeShownSubs.mpr ⟨_, _, (_, _), hdmem, by simpa using hc.1, ih hc.2, rfl⟩

/-- C1: a file of the source tree appears among the files listed by the
tree listing and among the files collected by the body walk if and only
if its name matches no file-ignore pattern, no directory on its relative
path matches a directory-ignore pattern, and the name either does not
start with a dot or matches an include-hidden pattern. -/
theorem c1_visibility_iff (r : Rules) (es : List FSEntry) (ds : List String)
    (name : String) (fd : FileData) (hf : FileAt es ds name fd) :
    (((ds, name, fd) ∈ walk_files r es) ↔ includedCond r ds name = true)
    ∧ (((ds, name) ∈ tree_shown r es) ↔ includedCond r ds name = true) :=
  ⟨⟨fun h => walk_files_cond ds name fd es h, fun h => walk_files_of_cond hf h⟩,
   ⟨fun h => tree_shown_cond ds name es h, fun h => tree_shown_of_cond hf h⟩⟩

/-- Witness for C1 on a concrete tree `a/b.py`, `a/.gitignore` with the
file-ignore set `[".gitignore"]`: `b.py` is both listed and collected,
while `.gitignore` — although it matches the include-hidden pattern
`.gitignore` — is excluded because it also matches an ignore pattern. -/
theorem c1_visibility_iff_witness :
    ((["a"], "b.py", (⟨.ok [], .ok []⟩ : FileData))
        ∈ walk_files ⟨IGNORED_DIRS, [".gitignore"], INCLUDE_HIDDEN_FILES⟩
            [.dir "a" [.file "b.py" ⟨.ok [], .ok []⟩, .file ".gitignore" ⟨.ok [], .ok []⟩]])
    ∧ ((["a"], ".gitignore")
        ∉ tree_shown ⟨IGNORED_DIRS, [".gitignore"], INCLUDE_HIDDEN_FILES⟩
            [.dir "a" [.file "b.py" ⟨.ok [], .ok []⟩, .file ".gitignore" ⟨.ok [], .ok []⟩]]) :=
  ⟨((c1_visibility_iff _ _ _ _ _
      (.step (List.mem_cons_self _ _) (.here (List.mem_cons_self _ _)))).1).mpr (by decide),
   fun hmem => absurd (((c1_visibility_iff
      ⟨IGNORED_DIRS, [".gitignore"], INCLUDE_HIDDEN_FILES⟩ _ _ _ ⟨.ok [], .ok []⟩
      (.step (List.mem_cons_self _ _)
        (.here (List.mem_cons_of_mem _ (List.mem_cons_self _ _))))).2).mp hmem)
     (by decide)⟩

/-- C2 (code-bug evidence): for an existing database with no tables, and
for one whose only table is the internal `sqlite_sequence`, the function
returns just the schema header — the `Database is empty or contains no
user tables.` message of line 139 is dead, because the header appended at
line 98 makes `markdown_output` non-empty on every path that reaches the
check. -/
theorem c2_empty_db_returns_header_only :
    (get_sqlite_schema "/p/empty.db" (some ⟨.ok [], .ok []⟩)).1
        = "# SQLite Schema: empty.db\n"
    ∧ (get_sqlite_schema "/p/internal.db"
        (some ⟨.ok [], .ok [⟨"sqlite_sequence", [], []⟩]⟩)).1
        = "# SQLite Schema: internal.db\n"
    ∧ "# SQLite Schema: empty.db\n" ≠ "Database is empty or contains no user tables." :=
  ⟨rfl, rfl, by decide⟩

/-- C3 (code-bug evidence): when the engine raises while reading the
schema of an existing file, `get_sqlite_schema` returns the error text
without closing the connection opened at line 92 (no `with` block and no
`finally`), while the success path does close it. -/
theorem c3_sqlite_error_path_leaks_connection :
    (get_sqlite_schema "/p/corrupt.db"
        (some ⟨.ok [1, 2, 3], .error "file is not a database"⟩)).2 = false
    ∧ (get_sqlite_schema "/p/ok.db" (some ⟨.ok [], .ok []⟩)).2 = true :=
  ⟨rfl, rfl⟩

theorem mem_setAdd_self (l : List String) (x : String) : x ∈ setAdd l x := by
  unfold setAdd
  split
  · assumption
  · simp

theorem mem_setAdd_of_mem {l : List String} {y : String} (x : String) (h : y ∈ l) :
    y ∈ setAdd l x := by
  unfold setAdd
  split
  · exact h
  · exact List.mem_append_left _ h

theorem setAdd_of_mem {l : List String} {x : String} (h : x ∈ l) : setAdd l x = l :=
  if_pos h

theorem setAdd_idem (l : List String) (x : String) :
    setAdd (setAdd l x) x = setAdd l x :=
  setAdd_of_mem (mem_setAdd_self l x)

/-- C7: running the generation twice against the same source tree with
the same output file produces the same document: the only state the
first run changes is the ignored-files set, to which adding the output
basename a second time is a no-op. -/
theorem c7_generation_idempotent (r : Rules) (source_dir : String)
    (es : List FSEntry) (output_file : String) (sm : Option SkillManager)
    (skillFS : String → Except String String) :
    (run_generation (run_generation r source_dir es output_file sm skillFS).2
        source_dir es output_file sm skillFS).1
      = (run_generation r source_dir es output_file sm skillFS).1 := by
  unfold run_generation
  simp only [setAdd_idem]

theorem joinNL_cons_cons_ne_empty (a b : String) (l : List String) :
    joinNL (a :: b :: l) ≠ "" := by
  intro h
  have hl : (joinNL (a :: b :: l)).length = 0 := by rw [h]; rfl
  rw [joinNL, joinWith] at hl
  simp only [String.length_append] at hl
  have : ("\n" : String).length = 1 := rfl
  omega

theorem get_compiled_skills_ne_empty {m : SkillManager}
    (h : m.selected_skills ≠ []) (skillFS : String → Except String String) :
    get_compiled_skills m skillFS ≠ "" := by
  unfold get_compiled_skills
  rw [if_neg h]
  exact joinNL_cons_cons_ne_empty _ _ _

/-- C5: with no skill selected, `get_compiled_skills` returns the empty
string and the assembled document consists of exactly the tree listing,
the file-contents header and the bodies — no skills preamble, no
`PROJECT CONTEXT START` marker; with at least one skill selected, the
compiled block comes first, separated from the tree by the fixed
marker. -/
theorem c5_skills_block_placement (m : SkillManager)
    (skillFS : String → Except String String) (tree content : String) :
    (m.selected_skills = [] →
      get_compiled_skills m skillFS = ""
      ∧ assembleDocument (some m) skillFS tree content
          = [tree, "\n# FILE CONTENTS\n", content])
    ∧ (m.selected_skills ≠ [] →
      assembleDocument (some m) skillFS tree content
        = [get_compiled_skills m skillFS, "\n# PROJECT CONTEXT START\n",
           tree, "\n# FILE CONTENTS\n", content]) := by
  constructor
  · intro h
    have hc : get_compiled_skills m skillFS = "" := by
      unfold get_compiled_skills
      rw [if_pos h]
    refine ⟨hc, ?_⟩
    have ha : assembleDocument (some m) skillFS tree content
        = (if get_compiled_skills m skillFS = "" then []
           else [get_compiled_skills m skillFS, "\n# PROJECT CONTEXT START\n"])
          ++ [tree, "\n# FILE CONTENTS\n", content] := rfl
    rw [ha, if_pos hc]
    rfl
  · intro h
    have hc := get_compiled_skills_ne_empty h skillFS
    have ha : assembleDocument (some m) skillFS tree content
        = (if get_compiled_skills m skillFS = "" then []
           else [get_compiled_skills m skillFS, "\n# PROJECT CONTEXT START\n"])
          ++ [tree, "\n# FILE CONTENTS\n", content] := rfl
    rw [ha, if_neg hc]
    rfl

/-- Witness for C5 at a session with no skill selected and at one with
one skill selected. -/
theorem c5_skills_block_placement_witness :
    (get_compiled_skills ⟨"skills", ["a.md"], []⟩ (fun _ => .ok "B") = ""
      ∧ assembleDocument (some ⟨"skills", ["a.md"], []⟩) (fun _ => .ok "B") "T" "C"
          = ["T", "\n# FILE CONTENTS\n", "C"])
    ∧ assembleDocument (some ⟨"skills", ["a.md"], ["a.md"]⟩) (fun _ => .ok "B") "T" "C"
        = [get_compiled_skills ⟨"skills", ["a.md"], ["a.md"]⟩ (fun _ => .ok "B"),
           "\n# PROJECT CONTEXT START\n", "T", "\n# FILE CONTENTS\n", "C"] :=
  ⟨(c5_skills_block_placement _ _ "T" "C").1 rfl,
   (c5_skills_block_placement _ _ "T" "C").2 (by simp)⟩

/-- C9: toggling an out-of-range index leaves the whole manager state
unchanged and returns the invalid-selection status message. -/
theorem c9_toggle_out_of_range (m : SkillManager) (index : Int)
    (h : ¬(0 ≤ index ∧ index < (m.available_skills.length : Int))) :
    toggle_skill m index = (m, "Invalid skill selection") := by
  unfold toggle_skill
  rw [if_neg h]

/-- Witness for C9 at an index past the end and at a negative index. -/
theorem c9_toggle_out_of_range_witness :
    toggle_skill ⟨"skills", ["a.md"], []⟩ 5
        = (⟨"skills", ["a.md"], []⟩, "Invalid skill selection")
    ∧ toggle_skill ⟨"skills", ["a.md"], []⟩ (-1)
        = (⟨"skills", ["a.md"], []⟩, "Invalid skill selection") :=
  ⟨c9_toggle_out_of_range _ 5 (by decide), c9_toggle_out_of_range _ (-1) (by decide)⟩

/-- C8 (amended): for an in-range index, toggling twice restores the
selected set's membership; and when the indexed skill was not selected
beforehand, the compiled-skills list afterwards omits it. -/
theorem c8_double_toggle_restores (m : SkillManager) (index : Int)
    (hrange : 0 ≤ index ∧ index < (m.available_skills.length : Int))
    (hnd : m.selected_skills.Nodup) :
    (∀ s, s ∈ ((toggle_skill (toggle_skill m index).1 index).1).selected_skills
        ↔ s ∈ m.selected_skills)
    ∧ (m.available_skills.getD index.toNat "" ∉ m.selected_skills →
        m.available_skills.getD index.toNat ""
          ∉ compiledSkillNames (toggle_skill (toggle_skill m index).1 index).1) := by
  by_cases hsel : m.selected_skills.contains (m.available_skills.getD index.toNat "") = true
  · have hmemsel : (m.available_skills.getD index.toNat "") ∈ m.selected_skills := by
      simpa using hsel
    have h1 : (toggle_skill m index).1
        = { m with selected_skills :=
            m.selected_skills.erase (m.available_skills.getD index.toNat "") } := by
      unfold toggle_skill
      rw [if_pos hrange, if_pos hsel]
    have hne : ¬ ((m.selected_skills.erase (m.available_skills.getD index.toNat "")).contains
        (m.available_skills.getD index.toNat "") = true) := by
      intro hc
      have hmem : (m.available_skills.getD index.toNat "")
          ∈ m.selected_skills.erase (m.available_skills.getD index.toNat "") := by
        simpa using hc
      exact ((List.Nodup.mem_erase_iff hnd).mp hmem).1 rfl
    have h2 : (toggle_skill (toggle_skill m index).1 index).1
        = { m with selected_skills :=
            (m.available_skills.getD index.toNat "")
              :: m.selected_skills.erase (m.available_skills.getD index.toNat "") } := by
      rw [h1]
      unfold toggle_skill
      rw [if_pos hrange, if_neg hne]
    refine ⟨?_, ?_⟩
    · intro s
      rw [h2]
      simp only [List.mem_cons]
      constructor
      · rintro (rfl | hs)
        · exact hmemsel
        · exact ((List.Nodup.mem_erase_iff hnd).mp hs).2
      · intro hs
        by_cases heq : s = m.available_skills.getD index.toNat ""
        · exact .inl heq
        · exact .inr ((List.Nodup.mem_erase_iff hnd).mpr ⟨heq, hs⟩)
    · intro hns
      exact absurd hmemsel hns
  · have h1 : (toggle_skill m index).1
        = { m with selected_skills :=
            (m.available_skills.getD index.toNat "") :: m.selected_skills } := by
      unfold toggle_skill
      rw [if_pos hrange, if_neg hsel]
    have hsel2 : (((m.available_skills.getD index.toNat "") :: m.selected_skills).contains
        (m.available_skills.getD index.toNat "")) = true := by simp
    have h2 : (toggle_skill (toggle_skill m index).1 index).1 = m := by
      rw [h1]
      unfold toggle_skill
      rw [if_pos hrange, if_pos hsel2, List.erase_cons_head]
    refine ⟨?_, ?_⟩
    · intro s
      rw [h2]
    · intro hns
      rw [h2]
      intro hmem
      exact hns (mem_sortStrings.mp hmem)

/-- Witness for C8 (amended) at a manager with one available skill and an
empty selection. -/
theorem c8_double_toggle_restores_witness :
    (∀ s, s ∈ ((toggle_skill (toggle_skill ⟨"skills", ["a.md"], []⟩ 0).1 0).1).selected_skills
        ↔ s ∈ ([] : List String))
    ∧ "a.md" ∉ compiledSkillNames (toggle_skill (toggle_skill ⟨"skills", ["a.md"], []⟩ 0).1 0).1 :=
  ⟨(c8_double_toggle_restores ⟨"skills", ["a.md"], []⟩ 0 (by decide) (by simp)).1,
   (c8_double_toggle_restores ⟨"skills", ["a.md"], []⟩ 0 (by decide) (by simp)).2
     (by simp)⟩

/-- C8 counterexample: with skill `a.md` already selected, toggling index
0 twice restores the selected set (so membership is back to its original
state), yet `get_compiled_skills` afterwards still emits that skill's
section — the claim's "compile afterwards omits that skill's section"
fails for an initially selected skill. -/
theorem c8_double_toggle_counterexample :
    ((toggle_skill (toggle_skill ⟨"skills", ["a.md"], ["a.md"]⟩ 0).1 0).1).selected_skills
        = ["a.md"]
    ∧ "a.md" ∈ compiledSkillNames
        (toggle_skill (toggle_skill ⟨"skills", ["a.md"], ["a.md"]⟩ 0).1 0).1
    ∧ get_compiled_skills
        (toggle_skill (toggle_skill ⟨"skills", ["a.md"], ["a.md"]⟩ 0).1 0).1
        (fun _ => .ok "B")
        = "# ACTIVE AGENT SKILLS & PERSONAS\n\nThe following skills are active for this session. Adopt these roles and guidelines:\n\n## Skill Module: a.md\nB\n---\n" := by
  refine ⟨rfl, ?_, rfl⟩
  simp [compiledSkillNames, sortStrings, insertStrSorted, toggle_skill]

/-- Per-file success condition of the scan: a recognized database file
always renders (engine errors become text); any other file succeeds
exactly when its read does. -/
def entrySucceeds (x : List String × String × FileData) : Bool :=
  is_sqlite_file x.2.1 ||
    (match x.2.2.readResult with
     | .ok _ => true
     | .error _ => false)

/-- The block emitted for a file whose processing succeeds. -/
def okBlock (source_dir : String) (x : List String × String × FileData) : String :=
  let relative_path := joinWith "/" (x.1 ++ [x.2.1])
  let file_path := source_dir ++ "/" ++ relative_path
  if is_sqlite_file x.2.1 then
    formatBlock relative_path "markdown" (get_sqlite_schema file_path (some x.2.2)).1
  else
    formatBlock relative_path (get_language_hint x.2.1)
      (readTextContent (match x.2.2.readResult with
        | .ok bytes => bytes
        | .error _ => []))

/-- The log line printed for a file whose read raises. -/
def logLine (source_dir : String) (x : List String × String × FileData) : String :=
  "Could not read file " ++ (source_dir ++ "/" ++ joinWith "/" (x.1 ++ [x.2.1])) ++ ": "
    ++ (match x.2.2.readResult with
        | .ok _ => ""
        | .error e => e)

theorem processFile_ok {source_dir : String} {x : List String × String × FileData}
    (h : entrySucceeds x = true) :
    processFile source_dir x = .ok (okBlock source_dir x) := by
  unfold processFile okBlock
  by_cases hs : is_sqlite_file x.2.1 = true
  · rw [if_pos hs, if_pos hs]
  · rw [if_neg hs, if_neg hs]
    unfold entrySucceeds at h
    rw [Bool.or_eq_true] at h
    rcases h with h | h
    · exact absurd h hs
    · cases hr : x.2.2.readResult with
      | ok bytes => rfl
      | error e => rw [hr] at h; exact absurd h (by simp)

theorem processFile_err {source_dir : String} {x : List String × String × FileData}
    (h : entrySucceeds x = false) :
    processFile source_dir x = .error (logLine source_dir x) := by
  unfold processFile logLine
  unfold entrySucceeds at h
  rw [Bool.or_eq_false_iff] at h
  rw [if_neg (by simp [h.1])]
  cases hr : x.2.2.readResult with
  | ok bytes => rw [hr] at h; exact absurd h.2 (by simp)
  | error e => rfl

theorem scan_blocks_eq (source_dir : String)
    (l : List (List String × String × FileData)) :
    (l.map (processFile source_dir)).filterMap (fun x => x.toOption)
      = (l.filter (fun x => entrySucceeds x)).map (okBlock source_dir) := by
  induction l with
  | nil => rfl
  | cons x xs ih =>
    rw [List.map_cons, List.filterMap_cons]
    cases h : entrySucceeds x with
    | false =>
      rw [processFile_err h, List.filter_cons_of_neg (by simp [h])]
      exact ih
    | true =>
      rw [processFile_ok h, List.filter_cons_of_pos (by simp [h]), List.map_cons]
      exact congrArg (okBlock source_dir x :: ·) ih

theorem scan_logs_eq (source_dir : String)
    (l : List (List String × String × FileData)) :
    (l.map (processFile source_dir)).filterMap (fun x =>
        match x with
        | .error e => some e
        | .ok _ => none)
      = (l.filter (fun x => !(entrySucceeds x))).map (logLine source_dir) := by
  induction l with
  | nil => rfl
  | cons x xs ih =>
    rw [List.map_cons, List.filterMap_cons]
    cases h : entrySucceeds x with
    | false =>
      rw [processFile_err h, List.filter_cons_of_pos (by simp [h]), List.map_cons]
      exact congrArg (logLine source_dir x :: ·) ih
    | true =>
      rw [processFile_ok h, List.filter_cons_of_neg (by simp [h])]
      exact ih

/-- C4 (amended): the scan never aborts on a single file: its collected
bodies are exactly the blocks of the accepted files whose processing
succeeds (database files always; other files when the read succeeds), in
order, and its log output is exactly one `Could not read file` line per
accepted file whose read raised — such files are skipped while the scan
continues.  Bytes that do not decode are dropped by `errors="ignore"`
(not replaced), see the counterexample. -/
theorem c4_per_file_errors_skipped (source_dir : String) (r : Rules)
    (es : List FSEntry) :
    (process_directory source_dir r es).1
      = joinNL (((walk_files r es).filter (fun x => entrySucceeds x)).map
          (okBlock source_dir))
    ∧ (process_directory source_dir r es).2
      = ((walk_files r es).filter (fun x => !(entrySucceeds x))).map
          (logLine source_dir) :=
  ⟨congrArg joinNL (scan_blocks_eq source_dir _), scan_logs_eq source_dir _⟩

/-- C4 counterexample to "undecodable bytes replaced": a visible file
with bytes 0x41 0xFF 0x42 is emitted as "AB" — the invalid byte is
dropped (`errors="ignore"`), not replaced by U+FFFD as `errors="replace"`
would produce. -/
theorem c4_decode_ignore_counterexample :
    (process_directory "/s" defaultRules
        [.file "x.txt" ⟨.ok [65, 255, 66], .error "file is not a database"⟩]).1
      = "\n---\n\n**File:** `x.txt`\n\n```\nAB\n```"
    ∧ readTextContent [65, 255, 66] = "AB"
    ∧ String.mk (utf8DecodeWith ['�'] [65, 255, 66]) = "A�B"
    ∧ ("AB" : String) ≠ "A�B" := by
  refine ⟨?_, rfl, rfl, by decide⟩
  rw [process_directory, scanResults, walk_files, subWalk, subWalk]
  rfl

theorem char_ofNat_toNat {b : Nat} (h : b < 128) : (Char.ofNat b).toNat = b := by
  have hv : Nat.isValidChar b := Or.inl (by omega)
  simp [Char.ofNat, hv, Char.ofNatAux, Char.toNat, UInt32.toNat, BitVec.toNat_ofNatLt]

theorem utf8Run_ascii :
    ∀ (bytes : List Nat), (∀ b ∈ bytes, b < 128) →
      utf8Run [] none bytes = bytes.map Char.ofNat := by
  intro bytes
  induction bytes with
  | nil => intro _; rfl
  | cons b rest ih =>
    intro h
    have hb : b < 128 := h b (List.mem_cons_self _ _)
    have hs : startByte b = .ascii (Char.ofNat b) := by
      unfold startByte
      rw [if_pos hb]
    simp only [utf8Run, hs, List.map_cons]
    exact congrArg _ (ih (fun b' hb' => h b' (List.mem_cons_of_mem _ hb')))

theorem translateNewlines_no_cr :
    ∀ (cs : List Char), '\r' ∉ cs → translateNewlines cs = cs := by
  intro cs
  induction cs with
  | nil => intro _; rfl
  | cons c rest ih =>
    intro h
    have hc : ¬(c = '\r') := fun he => h (he ▸ List.mem_cons_self _ _)
    have hrest : '\r' ∉ rest := fun hm => h (List.mem_cons_of_mem _ hm)
    cases rest with
    | nil => rw [translateNewlines, if_neg hc]
    | cons c2 rest2 =>
      rw [translateNewlines, if_neg hc]
      exact congrArg _ (ih hrest)

theorem readTextContent_ascii (bytes : List Nat)
    (hascii : ∀ b ∈ bytes, b < 128) (hcr : 13 ∉ bytes) :
    readTextContent bytes = String.mk (bytes.map Char.ofNat) := by
  have h2 : '\r' ∉ bytes.map Char.ofNat := by
    intro hmem
    rcases List.mem_map.mp hmem with ⟨b, hb, he⟩
    have h3 : (Char.ofNat b).toNat = b := char_ofNat_toNat (hascii b hb)
    rw [he] at h3
    rw [← h3] at hb
    exact hcr hb
  unfold readTextContent utf8DecodeWith
  rw [utf8Run_ascii bytes hascii, translateNewlines_no_cr _ h2]

/-- C6 (amended): for a visible non-database file whose raw content is
pure ASCII with no carriage return, the content emitted between the
file's content fences equals the original bytes exactly.  (With a
carriage return, universal-newline decoding rewrites it — see the
counterexample.) -/
theorem c6_ascii_roundtrip (source_dir : String) (pre : List String)
    (name : String) (fd : FileData) (bytes : List Nat)
    (hread : fd.readResult = .ok bytes)
    (hsql : is_sqlite_file name = false)
    (hascii : ∀ b ∈ bytes, b < 128)
    (hcr : 13 ∉ bytes) :
    processFile source_dir (pre, name, fd)
      = .ok (formatBlock (joinWith "/" (pre ++ [name])) (get_language_hint name)
          (String.mk (bytes.map Char.ofNat))) := by
  unfold processFile
  rw [if_neg (by simp [hsql])]
  show (match fd.readResult with
        | Except.ok bytes =>
          Except.ok (formatBlock (joinWith "/" (pre ++ [name]))
            (get_language_hint name) (readTextContent bytes))
        | Except.error e =>
          Except.error ("Could not read file "
            ++ (source_dir ++ "/" ++ joinWith "/" (pre ++ [name])) ++ ": " ++ e)) = _
  rw [hread]
  show Except.ok (formatBlock (joinWith "/" (pre ++ [name])) (get_language_hint name)
      (readTextContent bytes)) = _
  rw [readTextContent_ascii bytes hascii hcr]

/-- Witness for C6 at the two-byte ASCII file "hi". -/
theorem c6_ascii_roundtrip_witness :
    processFile "/s" ([], "a.txt", ⟨.ok [104, 105], .error "file is not a database"⟩)
      = .ok (formatBlock "a.txt" "" "hi") :=
  c6_ascii_roundtrip "/s" [] "a.txt" ⟨.ok [104, 105], .error "file is not a database"⟩
    [104, 105] rfl rfl (by decide) (by decide)

/-- C6 counterexample: a pure-ASCII file whose bytes are "a\r\nb" is
emitted as "a\nb": text-mode universal-newline decoding rewrites CRLF, so
the emitted content does not equal the original bytes. -/
theorem c6_crlf_counterexample :
    (process_directory "/s" defaultRules
        [.file "x.txt" ⟨.ok [97, 13, 10, 98], .error "file is not a database"⟩]).1
      = "\n---\n\n**File:** `x.txt`\n\n```\na\nb\n```"
    ∧ readTextContent [97, 13, 10, 98] = "a\nb"
    ∧ String.mk ([97, 13, 10, 98].map Char.ofNat) = "a\r\nb"
    ∧ ("a\nb" : String) ≠ "a\r\nb" := by
  refine ⟨?_, rfl, rfl, by decide⟩
  rw [process_directory, scanResults, walk_files, subWalk, subWalk]
  rfl


/-- A name free of the glob metacharacters `*`, `?`, `[`: for such a
name, using it as an fnmatch pattern matches exactly itself. -/
def noMeta (s : String) : Bool :=
  s.toList.all (fun c => !(c == '*' || c == '?' || c == '['))

theorem consume_self {c : Char} {rest : List Char}
    (h1 : ¬(c = '*')) (h2 : ¬(c = '?')) (h3 : ¬(c = '[')) :
    consume c (c :: rest) = [rest] := by
  show (if c = '*' then [c :: rest]
    else if c = '?' then [rest]
    else if c = '[' then
      (match parseClass rest with
       | some (neg, cls, rest2) => if (classMatch c cls != neg) = true then [rest2] else []
       | none => if (c == c) = true then [rest] else [])
    else if (c == c) = true then [rest] else []) = [rest]
  rw [if_neg h1, if_neg h2, if_neg h3, if_pos (by simp)]

theorem starClose_no_star {l : List Char} (h : ∀ ps, l ≠ '*' :: ps) :
    starClose l = [l] := by
  cases l with
  | nil => rfl
  | cons x ps =>
    rw [starClose, if_neg]
    intro hx
    exact h ps (by rw [hx])

theorem globRun_self :
    ∀ (l : List Char), (∀ c ∈ l, ¬(c = '*' ∨ c = '?' ∨ c = '[')) →
      globRun [l] l = true := by
  intro l
  induction l with
  | nil => intro _; rfl
  | cons c cs ih =>
    intro h
    have hc := h c (List.mem_cons_self _ _)
    rw [globRun]
    have h1 : [c :: cs].flatMap (consume c) = [cs] := by
      rw [List.flatMap_cons, List.flatMap_nil, List.append_nil]
      exact consume_self (fun he => hc (.inl he)) (fun he => hc (.inr (.inl he)))
        (fun he => hc (.inr (.inr he)))
    rw [h1]
    have hstar : ∀ ps, cs ≠ '*' :: ps := by
      intro ps hps
      have hm : '*' ∈ c :: cs := by
        rw [hps]
        exact List.mem_cons_of_mem _ (List.mem_cons_self _ _)
      exact (h '*' hm) (.inl rfl)
    have h2 : [cs].flatMap starClose = [cs] := by
      rw [List.flatMap_cons, List.flatMap_nil, List.append_nil]
      exact starClose_no_star hstar
    rw [h2]
    exact ih (fun c' hc' => h c' (List.mem_cons_of_mem _ hc'))

theorem fnmatch_self {s : String} (h : noMeta s = true) : fnmatch s s = true := by
  unfold fnmatch globMatch
  have hmeta : ∀ c ∈ s.toList, ¬(c = '*' ∨ c = '?' ∨ c = '[') := by
    intro c hc
    have hb := List.all_eq_true.mp h c hc
    intro hor
    rcases hor with rfl | rfl | rfl <;> simp at hb
  rw [starClose_no_star (fun ps hps =>
    (hmeta '*' (by rw [hps]; exact List.mem_cons_self _ _)) (.inl rfl))]
  exact globRun_self s.toList hmeta

theorem matches_any_of_mem {name p : String} {l : List String}
    (hp : p ∈ l) (h : fnmatch name p = true) : matches_any_pattern name l = true := by
  unfold matches_any_pattern
  rw [List.any_eq_true]
  exact ⟨p, hp, h⟩

theorem includedCond_matches_false {r : Rules} {ds : List String} {name : String}
    (h : includedCond r ds name = true) :
    matches_any_pattern name r.ignored_files = false := by
  rw [includedCond, Bool.and_eq_true] at h
  have h2 := h.2
  rw [fileShown, Bool.and_eq_true] at h2
  simpa using h2.1

/-- C10 (amended): `run_generation` adds the output basename to the
ignored-files set, removes nothing from it, and touches no other rule
set; afterwards — for the rest of the process, including a later run
with a different output name — every file whose name matches that
basename as a glob pattern is excluded from both the walk and the tree
listing; in particular every file literally named basename(O) is
excluded whenever that basename contains no glob metacharacter.  (The
basename is used as an fnmatch pattern, so a basename containing `*`,
`?` or `[` does not reliably exclude the file of that exact name — see
the counterexample.) -/
theorem c10_output_ignore_persists (r : Rules) (source_dir source_dir2 : String)
    (es es2 : List FSEntry) (out out2 : String)
    (sm sm2 : Option SkillManager) (fs fs2 : String → Except String String) :
    (osBasename out) ∈ (run_generation r source_dir es out sm fs).2.ignored_files
    ∧ (∀ p ∈ r.ignored_files, p ∈ (run_generation r source_dir es out sm fs).2.ignored_files)
    ∧ (run_generation r source_dir es out sm fs).2.ignored_dirs = r.ignored_dirs
    ∧ (run_generation r source_dir es out sm fs).2.include_hidden = r.include_hidden
    ∧ (∀ ds name fd,
        fnmatch name (osBasename out) = true →
        (ds, name, fd) ∉ walk_files
          (run_generation (run_generation r source_dir es out sm fs).2
            source_dir2 es2 out2 sm2 fs2).2 es2
        ∧ (ds, name) ∉ tree_shown
          (run_generation (run_generation r source_dir es out sm fs).2
            source_dir2 es2 out2 sm2 fs2).2 es2)
    ∧ (∀ ds fd, noMeta (osBasename out) = true →
        (ds, osBasename out, fd) ∉ walk_files
          (run_generation (run_generation r source_dir es out sm fs).2
            source_dir2 es2 out2 sm2 fs2).2 es2) := by
  have h2 : (run_generation (run_generation r source_dir es out sm fs).2
        source_dir2 es2 out2 sm2 fs2).2.ignored_files
      = setAdd (setAdd r.ignored_files (osBasename out)) (osBasename out2) := rfl
  have hbmem : (osBasename out) ∈ (run_generation (run_generation r source_dir es out sm fs).2
      source_dir2 es2 out2 sm2 fs2).2.ignored_files := by
    rw [h2]
    exact mem_setAdd_of_mem _ (mem_setAdd_self _ _)
  have hexcl : ∀ ds name fd,
      fnmatch name (osBasename out) = true →
      (ds, name, fd) ∉ walk_files
        (run_generation (run_generation r source_dir es out sm fs).2
          source_dir2 es2 out2 sm2 fs2).2 es2
      ∧ (ds, name) ∉ tree_shown
        (run_generation (run_generation r source_dir es out sm fs).2
          source_dir2 es2 out2 sm2 fs2).2 es2 := by
    intro ds name fd hm
    constructor
    · intro hmem
      have hfalse := includedCond_matches_false (walk_files_cond ds name fd es2 hmem)
      rw [matches_any_of_mem hbmem hm] at hfalse
      exact Bool.noConfusion hfalse
    · intro hmem
      have hfalse := includedCond_matches_false (tree_shown_cond ds name es2 hmem)
      rw [matches_any_of_mem hbmem hm] at hfalse
      exact Bool.noConfusion hfalse
  refine ⟨mem_setAdd_self _ _, ?_, rfl, rfl, hexcl, ?_⟩
  · intro p hp
    exact mem_setAdd_of_mem _ hp
  · intro ds fd hnm
    exact (hexcl ds (osBasename out) fd (fnmatch_self hnm)).1

/-- Witness for C10: after generating to `ctx.md` and then to `other.md`,
a file named `ctx.md` is excluded from the second run's walk and tree. -/
theorem c10_output_ignore_persists_witness :
    (([], "ctx.md", (⟨.ok [], .ok []⟩ : FileData)) ∉ walk_files
        (run_generation (run_generation defaultRules "/s" [] "ctx.md" none
            (fun _ => .ok "")).2
          "/s" [.file "ctx.md" ⟨.ok [], .ok []⟩] "other.md" none (fun _ => .ok "")).2
        [.file "ctx.md" ⟨.ok [], .ok []⟩])
    ∧ (([], "ctx.md") ∉ tree_shown
        (run_generation (run_generation defaultRules "/s" [] "ctx.md" none
            (fun _ => .ok "")).2
          "/s" [.file "ctx.md" ⟨.ok [], .ok []⟩] "other.md" none (fun _ => .ok "")).2
        [.file "ctx.md" ⟨.ok [], .ok []⟩]) :=
  (c10_output_ignore_persists defaultRules "/s" "/s" [] [.file "ctx.md" ⟨.ok [], .ok []⟩]
      "ctx.md" "other.md" none none (fun _ => .ok "") (fun _ => .ok "")).2.2.2.2.1
    [] "ctx.md" ⟨.ok [], .ok []⟩ (by decide)

/-- C10 counterexample to "excludes all files named basename(O)": the
basename `out[1].md` is used as an fnmatch pattern, where `[1]` is a
character class, so it does not match the literal name `out[1].md` — a
file of exactly that name is still included in a subsequent scan even
though the basename was added to the ignored set. -/
theorem c10_metachar_counterexample :
    fnmatch "out[1].md" "out[1].md" = false
    ∧ ([], "out[1].md", (⟨.ok [], .ok []⟩ : FileData)) ∈ walk_files
        (run_generation (run_generation defaultRules "/s" [] "out[1].md" none
            (fun _ => .ok "")).2
          "/s" [.file "out[1].md" ⟨.ok [], .ok []⟩] "other.md" none (fun _ => .ok "")).2
        [.file "out[1].md" ⟨.ok [], .ok []⟩] :=
  ⟨by decide,
   walk_files_of_cond (.here (List.mem_cons_self _ _)) (by decide)⟩

theorem dirFileLines_of_shown {r : Rules} {es : List FSEntry} {n : String}
    (lvl : Nat) (h : ([], n) ∈ dirShownFiles r es) :
    (indentStr lvl ++ n) ∈ dirFileLines r lvl es := by
  unfold dirShownFiles at h
  unfold dirFileLines
  rcases List.mem_map.mp h with ⟨f, hf, heq⟩
  simp only [Prod.mk.injEq] at heq
  exact List.mem_map.mpr ⟨f, hf, by rw [heq.2]⟩

theorem treeSubLines_of_dir {r : Rules} {d : String} {sub : List FSEntry}
    {line : String} (level : Nat) :
    ∀ {es : List FSEntry}, FSEntry.dir d sub ∈ es →
      matches_any_pattern d r.ignored_dirs = false →
      line ∈ ((indentStr level ++ d ++ "/") :: dirFileLines r (level + 1) sub)
        ++ treeSubLines r (level + 1) sub →
      line ∈ treeSubLines r level es := by
  intro es
  induction es with
  | nil =>
    intro hmem
    exact absurd hmem (List.not_mem_nil _)
  | cons e es ih =>
    intro hmem hdm hline
    rcases List.mem_cons.mp hmem with heq | hmem'
    · subst heq
      rw [treeSubLines, if_neg (by simp [hdm])]
      exact List.mem_append_left _ (by simpa using hline)
    · cases e with
      | file n fd =>
        rw [treeSubLines]
        exact ih hmem' hdm hline
      | dir d0 sub0 =>
        rw [treeSubLines]
        exact List.mem_append_right _ (ih hmem' hdm hline)

theorem treeSubLines_of_shown {r : Rules} :
    ∀ (ds : List String) (name : String) (es : List FSEntry) (level : Nat),
      (ds, name) ∈ treeShownSubs r es →
      (indentStr (level + ds.length) ++ name) ∈ treeSubLines r level es := by
  intro ds
  induction ds with
  | nil =>
    intro name es level h
    rcases mem_treeShownSubs.mp h with ⟨d, sub, y, -, -, -, hx⟩
    simp only [Prod.mk.injEq] at hx
    exact absurd hx.1 (by simp)
  | cons d0 ds ih =>
    intro name es level h
    rcases mem_treeShownSubs.mp h with ⟨d, sub, y, hmem, hdm, hy, hx⟩
    obtain ⟨yds, yn⟩ := y
    simp only [Prod.mk.injEq, List.cons.injEq] at hx
    obtain ⟨⟨rfl, rfl⟩, rfl⟩ := hx
    refine treeSubLines_of_dir level hmem hdm ?_
    rcases List.mem_append.mp hy with h1 | h2
    · rcases mem_dirShownFiles.mp h1 with ⟨n, fd, -, -, heq⟩
      simp only [Prod.mk.injEq] at heq
      obtain ⟨hnil, rfl⟩ := heq
      subst hnil
      refine List.mem_cons_of_mem _ (List.mem_append_left _ ?_)
      exact dirFileLines_of_shown (level + 1) h1
    · have hl := ih name sub (level + 1) h2
      rw [show level + (d0 :: ds).length = level + 1 + ds.length from by
        simp [List.length_cons]
        omega]
      exact List.mem_cons_of_mem _ (List.mem_append_right _ hl)

/-- Anchor of `tree_shown` to the rendered listing: every file shown at
relative directory path `ds` has its rendered line — the file name
indented one level deeper than its directory — among the lines of
`generate_tree_structure` (whose fenced body is the root line, the
root's file lines `dirFileLines r 1 es` and the subtree lines
`treeSubLines r 1 es`). -/
theorem tree_shown_line_in_listing (r : Rules) (es : List FSEntry)
    (ds : List String) (name : String) (h : (ds, name) ∈ tree_shown r es) :
    (indentStr (1 + ds.length) ++ name)
      ∈ dirFileLines r 1 es ++ treeSubLines r 1 es := by
  rcases List.mem_append.mp h with h1 | h2
  · rcases mem_dirShownFiles.mp h1 with ⟨n, fd, -, -, heq⟩
    simp only [Prod.mk.injEq] at heq
    obtain ⟨rfl, rfl⟩ := heq
    exact List.mem_append_left _ (dirFileLines_of_shown 1 h1)
  · have hl := treeSubLines_of_shown ds name es 1 h2
    refine List.mem_append_right _ ?_
    have harith : 1 + ds.length = ds.length + 1 := by omega
    simpa [Nat.add_comm] using hl
